import Mathlib

/-!
Verification of the chunking / map-reduce summarization core of the
`html_pdf_summarizer` repository (files `html_summary.py`, `pdf_summary.py`,
`llm.py`, `transcript_llm.py`).

Texts are modelled as `List Char` (Python strings are sequences of code
points; all operations the core performs — `len`, slicing, `split`,
`strip`, concatenation — are code-point-wise).  The external LLM calls
(`ollama.chat`) are modelled as function parameters: a non-streaming call
either returns a reply or fails, i.e. `List Char → Except (List Char) (List Char)`
(the `error` payload is the exception text); higher layers that already
absorb failures are modelled at the `Option` level (`none` = Python `None`).
All definitions are direct translations of the Python source, one function
per Python method, keeping the source's names.
-/

namespace HtmlPdfSummarizer

/-- Python's ASCII whitespace set as used by `str.strip()` / `str.split()`
(space, tab, newline, carriage return, vertical tab, form feed). -/
def pyWs (c : Char) : Bool :=
  c = ' ' || c = '\t' || c = '\n' || c = '\r' || c = Char.ofNat 11 || c = Char.ofNat 12

/-- Python `str.strip()`: remove leading and trailing whitespace. -/
def pyStrip (l : List Char) : List Char :=
  ((l.dropWhile pyWs).reverse.dropWhile pyWs).reverse

/-- `WebArticleSummarizer.count_tokens` (html_summary.py line 204-207):
`len(text) // 3`. -/
def count_tokens (text : List Char) : Nat :=
  text.length / 3

/-- `WebArticleSummarizer.count_tokens_batch` (html_summary.py line 209-211):
sum of `count_tokens` over a list of texts. -/
def count_tokens_batch (texts : List (List Char)) : Nat :=
  (texts.map count_tokens).sum

/-- The loop body of `WebArticleSummarizer.split_texts_by_tokens`
(html_summary.py lines 273-293), recursing over the remaining `texts` with
the accumulated `current_group` and `current_tokens` of the Python loop.
The produced groups are returned front-to-back. -/
def split_texts_go (max_tokens : Nat) :
    List (List Char) → List (List Char) → Nat → List (List (List Char))
  | [], current_group, _ =>
    if current_group = [] then [] else [current_group]
  | text :: rest, current_group, current_tokens =>
    if max_tokens < current_tokens + count_tokens text ∧ ¬ current_group = [] then
      current_group :: split_texts_go max_tokens rest [text] (count_tokens text)
    else
      split_texts_go max_tokens rest (current_group ++ [text]) (current_tokens + count_tokens text)

/-- `WebArticleSummarizer.split_texts_by_tokens` (html_summary.py lines
273-293): greedy grouping of whole texts under a token budget. -/
def split_texts_by_tokens (texts : List (List Char)) (max_tokens : Nat) :
    List (List (List Char)) :=
  split_texts_go max_tokens texts [] 0

/-- `PDFSummarizer.set_chunk_length` (pdf_summary.py lines 157-159) acts on
the `max_chunk_length` field; the argument is an arbitrary Python int. -/
structure PDFSummarizerState where
  max_chunk_length : Int

/-- `PDFSummarizer.set_chunk_length`: `self.max_chunk_length = max(500, length)`. -/
def set_chunk_length (st : PDFSummarizerState) (length : Int) : PDFSummarizerState :=
  { st with max_chunk_length := max 500 length }

section GrouperLemmas

theorem split_texts_go_join (max_tokens : Nat) :
    ∀ (ts : List (List Char)) (cur : List (List Char)) (ctok : Nat),
      (split_texts_go max_tokens ts cur ctok).flatten = cur ++ ts := by
  intro ts
  induction ts with
  | nil =>
    intro cur ctok
    by_cases h : cur = [] <;> simp [split_texts_go, h]
  | cons t rest ih =>
    intro cur ctok
    by_cases h : max_tokens < ctok + count_tokens t ∧ ¬ cur = []
    · simp [split_texts_go, h, ih]
    · simp [split_texts_go, h, ih]

theorem split_texts_go_ne_nil (max_tokens : Nat) :
    ∀ (ts : List (List Char)) (cur : List (List Char)) (ctok : Nat),
      ∀ g ∈ split_texts_go max_tokens ts cur ctok, g ≠ [] := by
  intro ts
  induction ts with
  | nil =>
    intro cur ctok g hg
    by_cases h : cur = []
    · simp [split_texts_go, h] at hg
    · simp [split_texts_go, h] at hg
      simpa [hg] using h
  | cons t rest ih =>
    intro cur ctok g hg
    by_cases h : max_tokens < ctok + count_tokens t ∧ ¬ cur = []
    · simp only [split_texts_go, if_pos h, List.mem_cons] at hg
      rcases hg with rfl | hg
      · exact h.2
      · exact ih _ _ g hg
    · simp only [split_texts_go, if_neg h] at hg
      exact ih _ _ g hg

/-- Invariant-carrying lemma: if the running group only ever holds an
over-budget text alone and the running token counter is the sum of the
running group's estimates, an over-budget text always ends up alone. -/
theorem split_texts_go_oversized (max_tokens : Nat) :
    ∀ (ts : List (List Char)) (cur : List (List Char)) (ctok : Nat),
      ctok = (cur.map count_tokens).sum →
      (∀ t ∈ cur, max_tokens < count_tokens t → cur = [t]) →
      ∀ g ∈ split_texts_go max_tokens ts cur ctok,
        ∀ t ∈ g, max_tokens < count_tokens t → g = [t] := by
  intro ts
  induction ts with
  | nil =>
    intro cur ctok _ hinv g hg
    by_cases h : cur = []
    · simp [split_texts_go, h] at hg
    · simp [split_texts_go, h] at hg
      subst hg; exact hinv
  | cons t rest ih =>
    intro cur ctok hsum hinv g hg
    by_cases h : max_tokens < ctok + count_tokens t ∧ ¬ cur = []
    · simp only [split_texts_go, if_pos h, List.mem_cons] at hg
      rcases hg with rfl | hg
      · exact hinv
      · refine ih [t] (count_tokens t) (by simp) ?_ g hg
        intro u hu _
        simp only [List.mem_singleton] at hu
        simp [hu]
    · simp only [split_texts_go, if_neg h] at hg
      refine ih (cur ++ [t]) (ctok + count_tokens t) (by simp [hsum]) ?_ g hg
      intro u hu hover
      rcases List.mem_append.1 hu with hu | hu
      · -- u already in cur: then cur = [u] and ctok > budget, contradicting
        -- the fact that the close-branch was not taken.
        have hcur : cur = [u] := hinv u hu hover
        exfalso
        apply h
        constructor
        · have : ctok = count_tokens u := by simp [hsum, hcur]
          omega
        · simp [hcur]
      · -- u = t: the close-branch was not taken, so either cur was empty
        -- (and the new group is [t] alone) or the sum fits, contradicting
        -- that t alone is over budget.
        simp only [List.mem_singleton] at hu
        subst hu
        by_cases hc : cur = []
        · simp [hc]
        · exfalso; exact h ⟨by omega, hc⟩

end GrouperLemmas

/-- C5: `split_texts_by_tokens` returns groups whose in-order concatenation
is exactly the input list (no loss, duplication or reordering), every group
is non-empty, and any text whose estimate alone exceeds the budget sits in
a singleton group (it is never dropped and never shares a group). -/
theorem c5_grouper_preserves_texts (texts : List (List Char)) (max_tokens : Nat) :
    (split_texts_by_tokens texts max_tokens).flatten = texts ∧
    (∀ g ∈ split_texts_by_tokens texts max_tokens, g ≠ []) ∧
    (∀ g ∈ split_texts_by_tokens texts max_tokens,
      ∀ t ∈ g, max_tokens < count_tokens t → g = [t]) := by
  refine ⟨?_, ?_, ?_⟩
  · simpa using split_texts_go_join max_tokens texts [] 0
  · exact split_texts_go_ne_nil max_tokens texts [] 0
  · exact split_texts_go_oversized max_tokens texts [] 0 (by simp) (by simp)

/-- Witness for C5 at a concrete input: budget 1, texts
`["aaaaaa", "bbb"]` where the first text alone exceeds the budget; the
groups are `[["aaaaaa"], ["bbb"]]`. -/
theorem c5_grouper_preserves_texts_witness :
    (split_texts_by_tokens [['a','a','a','a','a','a'], ['b','b','b']] 1).flatten
        = [['a','a','a','a','a','a'], ['b','b','b']] ∧
      (∀ g ∈ split_texts_by_tokens [['a','a','a','a','a','a'], ['b','b','b']] 1, g ≠ []) ∧
      (∀ g ∈ split_texts_by_tokens [['a','a','a','a','a','a'], ['b','b','b']] 1,
        ∀ t ∈ g, 1 < count_tokens t → g = [t]) :=
  c5_grouper_preserves_texts [['a','a','a','a','a','a'], ['b','b','b']] 1

/-- Python truthiness filtering `if summary: ...append(summary)` applied to
the result of a call that may return `None` (modelled as `none`) or an
empty string: only a non-`None`, non-empty result is kept. -/
def keepTruthy : Option (List Char) → Option (List Char)
  | some s => if s = [] then none else some s
  | none => none

/-- The iterative merge loop of `WebArticleSummarizer.summarize_texts_stream`
(html_summary.py lines 332-345): while the batch estimate exceeds
`token_limit`, group the summaries, call `reduce_summaries` (the port's
merge, which may return `None`) on each group keeping truthy results, stop
when a generation produces nothing (`if not new_summaries: break`).
The Python `while` loop has no iteration cap, so the model takes explicit
`fuel`; `none` means the loop was still running when the fuel ran out.
`merge_calls` counts the `reduce_summaries` invocations so far. -/
def reduce_loop (merge : List (List Char) → Option (List Char)) (token_limit : Nat) :
    Nat → List (List Char) → Nat → Option (List (List Char) × Nat)
  | 0, _, _ => none
  | fuel + 1, summaries, merge_calls =>
    if token_limit < count_tokens_batch summaries then
      let chunks := split_texts_by_tokens summaries token_limit
      let new_summaries := chunks.filterMap (fun g => keepTruthy (merge g))
      if new_summaries = [] then some (summaries, merge_calls + chunks.length)
      else reduce_loop merge token_limit fuel new_summaries (merge_calls + chunks.length)
    else some (summaries, merge_calls)

/-- The map phase of `summarize_texts_stream` (html_summary.py lines
321-326): summarize every text, keeping the truthy results in order.
`summ` is `generate_summary` = `DocumentSummarizer.summarize_content`,
which returns `None` on a failed model call. -/
def map_step (summ : List Char → Option (List Char)) (texts : List (List Char)) :
    List (List Char) :=
  texts.filterMap (fun t => keepTruthy (summ t))

/-- `WebArticleSummarizer.summarize_texts_stream` (html_summary.py lines
314-352), with the port calls abstracted: `summ` for `generate_summary`,
`merge` for `reduce_summaries`, `mergeStream` for the final
`reduce_summaries_stream` (its yielded fragments concatenated).  The result
is `(concatenated output, summarize calls, merge calls)`; `none` only when
the un-capped merge loop consumed all `fuel`.  The two early returns yield
the literal Python messages. -/
def summarize_texts_stream (summ : List Char → Option (List Char))
    (merge : List (List Char) → Option (List Char))
    (mergeStream : List (List Char) → List Char)
    (token_limit fuel : Nat) (texts : List (List Char)) :
    Option (List Char × Nat × Nat) :=
  if texts = [] then some ("沒有文字可供摘要".data, 0, 0)
  else
    let summaries := map_step summ texts
    if summaries = [] then some ("無法生成摘要".data, texts.length, 0)
    else
      match reduce_loop merge token_limit fuel summaries 0 with
      | none => none
      | some (finalSummaries, merge_calls) =>
        some (mergeStream finalSummaries, texts.length, merge_calls + 1)

section ReduceLoopLemmas

theorem filterMap_keepTruthy_none {α : Type} (l : List α) :
    l.filterMap (fun _ => keepTruthy (some ([] : List Char))) = [] := by
  induction l with
  | nil => rfl
  | cons a l ih => simp [List.filterMap_cons, keepTruthy, ih]

/-- On the concrete state `["aaa"]` with budget 0, a merge that returns the
concatenation of its group reproduces the same SummarySet, so one loop step
just burns one unit of fuel. -/
theorem c1_nonterm_aux :
    ∀ (n merge_calls : Nat),
      reduce_loop (fun g => some g.flatten) 0 n [['a','a','a']] merge_calls = none := by
  intro n
  induction n with
  | zero => intro mc; rfl
  | succ n ih =>
    intro mc
    have hstep :
        reduce_loop (fun g => some g.flatten) 0 (n + 1) [['a','a','a']] mc =
          reduce_loop (fun g => some g.flatten) 0 n [['a','a','a']] (mc + 1) := rfl
    rw [hstep, ih]

end ReduceLoopLemmas

/-- Counterexample for C1: with the Summarization Port behavior
`merge(group) = concatenation of the group` (a merge that never shrinks its
input) and budget 0, the merge loop started on the SummarySet `["aaa"]`
never terminates: no amount of fuel makes it return.  The code has no
generation-count safety bound. -/
theorem c1_counterexample_nontermination :
    ¬ ∃ fuel : Nat,
      (reduce_loop (fun g => some g.flatten) 0 fuel [['a','a','a']] 0).isSome = true := by
  rintro ⟨fuel, hfuel⟩
  rw [c1_nonterm_aux fuel 0] at hfuel
  simp at hfuel

/-- C1 (amended): the merge loop of `summarize_texts_stream` exits when a
whole generation of merge calls returns empty — one unit of fuel suffices,
and the previous SummarySet is returned — and likewise exits as soon as
the batch estimate fits the budget.  (There is no generation-count cap: a
merge that never shrinks its input loops forever, see the counterexample.) -/
theorem c1_reduce_loop_empty_merge_terminates
    (token_limit : Nat) (summaries : List (List Char)) (merge_calls : Nat) :
    ∃ merge_calls' : Nat,
      reduce_loop (fun _ => some []) token_limit 1 summaries merge_calls
        = some (summaries, merge_calls') := by
  by_cases h : token_limit < count_tokens_batch summaries
  · refine ⟨merge_calls + (split_texts_by_tokens summaries token_limit).length, ?_⟩
    simp [reduce_loop, h, filterMap_keepTruthy_none]
  · exact ⟨merge_calls, by simp [reduce_loop, h]⟩

/-- `' '.join(words)` (transcript_llm.py lines 172, 180). -/
def joinSpace : List (List Char) → List Char
  | [] => []
  | [w] => w
  | w :: ws => w ++ ' ' :: joinSpace ws

/-- `"\n\n".join(texts)` (llm.py line 89, transcript_llm.py line 195). -/
def joinNN : List (List Char) → List Char
  | [] => []
  | [s] => s
  | s :: ss => s ++ '\n' :: '\n' :: joinNN ss

/-- Python `str.split()` with no separator: split on whitespace runs,
dropping empty words.  The fuel (first argument) bounds the number of steps;
each step consumes at least one character, so `l.length` is enough. -/
def pySplit_go : Nat → List Char → List (List Char)
  | 0, _ => []
  | _, [] => []
  | fuel + 1, c :: rest =>
    if pyWs c then pySplit_go fuel rest
    else
      (c :: rest).takeWhile (fun d => !pyWs d) ::
        pySplit_go fuel ((c :: rest).dropWhile (fun d => !pyWs d))

/-- Python `transcript.split()` (transcript_llm.py line 165). -/
def pySplit (l : List Char) : List (List Char) :=
  pySplit_go l.length l

/-- The word-accumulation loop of `TranscriptSummarizer.chunk_and_summarize`
(transcript_llm.py lines 164-180): pack words into chunks of at most
`chunk_size` characters counting one separator per word; on overflow the
current chunk is flushed as `' '.join(current_chunk)` (even when it is
empty, exactly as the Python does). -/
def chunk_words_go (chunk_size : Nat) :
    List (List Char) → List (List Char) → Nat → List (List Char)
  | [], current_chunk, _ =>
    if current_chunk = [] then [] else [joinSpace current_chunk]
  | word :: rest, current_chunk, current_length =>
    if chunk_size < current_length + (word.length + 1) then
      joinSpace current_chunk :: chunk_words_go chunk_size rest [word] (word.length + 1)
    else
      chunk_words_go chunk_size rest (current_chunk ++ [word])
        (current_length + (word.length + 1))

/-- Prompt prefix of `TranscriptSummarizer.summarize_transcript`
(transcript_llm.py line 137). -/
def transcript_sum_prompt : List Char :=
  "請為以下影片逐字稿撰寫結構化的摘要：\n\n".data

/-- Prompt prefix of the final merge in `chunk_and_summarize`
(transcript_llm.py line 196). -/
def transcript_merge_prompt : List Char :=
  "以下是影片不同部分的摘要，請將它們整合成一個完整、連貫的最終摘要：\n\n".data

/-- `TranscriptSummarizer.summarize_transcript` (transcript_llm.py lines
135-139): reset the conversation, then one `chat` call on the prompt.
`chatFn` models `self.chat` on a freshly reset conversation; it returns
`none` when the underlying model call raises (transcript_llm.py line 103). -/
def summarize_transcript (chatFn : List Char → Option (List Char))
    (transcript : List Char) : Option (List Char) :=
  chatFn (transcript_sum_prompt ++ transcript)

/-- `TranscriptSummarizer.chunk_and_summarize` (transcript_llm.py lines
148-198).  Result: `(returned summary, summarize calls, merge calls)`. -/
def chunk_and_summarize (chatFn : List Char → Option (List Char))
    (chunk_size : Nat) (transcript : List Char) :
    Option (List Char) × Nat × Nat :=
  if transcript.length ≤ chunk_size then
    (summarize_transcript chatFn transcript, 1, 0)
  else
    let chunks := chunk_words_go chunk_size (pySplit transcript) [] 0
    let summaries := chunks.filterMap (fun c => keepTruthy (summarize_transcript chatFn c))
    match summaries with
    | [s] => (some s, chunks.length, 0)
    | _ => (chatFn (transcript_merge_prompt ++ joinNN summaries), chunks.length, 1)

/-- Counterexample for C4: one input text, a port whose summarize returns
`"s"` (which fits any budget) and whose merge/stream-merge returns `"m"`.
`summarize_texts_stream` issues the final `reduce_summaries_stream` merge
call even though the SummarySet is the singleton `["s"]` within budget:
the merge-call count is 1, not 0, and the output is the merge's result
`"m"`, not the single summary `"s"` verbatim. -/
theorem c4_counterexample_final_merge_always_called :
    summarize_texts_stream (fun _ => some ['s']) (fun _ => some ['m'])
        (fun _ => ['m']) 3000 1 [['t']] = some (['m'], 1, 1) ∧
      (['m'] : List Char) ≠ ['s'] :=
  ⟨rfl, by decide⟩

/-- C4 (amended): in the html engine, when the single summary fits the
budget the merge loop is skipped, but the final step still issues exactly
one merge(-stream) call whose result is returned (`summarize` is called
once per input text); the transcript engine's `chunk_and_summarize`, in
contrast, issues exactly one summarize call and no merge call when the
input fits in one chunk, returning its result directly. -/
theorem c4_single_summary_behavior
    (summ : List Char → Option (List Char))
    (merge : List (List Char) → Option (List Char))
    (mergeStream : List (List Char) → List Char)
    (token_limit : Nat) (t s : List Char)
    (chatFn : List Char → Option (List Char)) (chunk_size : Nat)
    (transcript : List Char)
    (hs : summ t = some s) (hne : s ≠ []) (hfit : count_tokens s ≤ token_limit)
    (htr : transcript.length ≤ chunk_size) :
    summarize_texts_stream summ merge mergeStream token_limit 1 [t]
        = some (mergeStream [s], 1, 1) ∧
      chunk_and_summarize chatFn chunk_size transcript
        = (chatFn (transcript_sum_prompt ++ transcript), 1, 0) := by
  constructor
  · have hmap : map_step summ [t] = [s] := by
      simp [map_step, keepTruthy, hs, hne]
    have hbatch : ¬ token_limit < count_tokens_batch [s] := by
      simp only [count_tokens_batch, List.map_cons, List.map_nil, List.sum_cons,
        List.sum_nil, Nat.add_zero]
      omega
    simp [summarize_texts_stream, hmap, reduce_loop, hbatch]
  · simp [chunk_and_summarize, htr, summarize_transcript]

/-- Witness for C4 (amended) at a concrete port and inputs. -/
theorem c4_single_summary_behavior_witness :
    ((fun _ => some ['s'] : List Char → Option (List Char)) ['t'] = some ['s'] ∧
        (['s'] : List Char) ≠ [] ∧ count_tokens ['s'] ≤ 5 ∧
        (['x'] : List Char).length ≤ 9) ∧
      summarize_texts_stream (fun _ => some ['s']) (fun _ => some ['m'])
          (fun _ => ['m']) 5 1 [['t']] = some (['m'], 1, 1) ∧
      chunk_and_summarize (fun _ => some ['q']) 9 ['x'] = (some ['q'], 1, 0) :=
  ⟨⟨rfl, by decide, by decide, by decide⟩,
    c4_single_summary_behavior (fun _ => some ['s']) (fun _ => some ['m'])
      (fun _ => ['m']) 5 ['t'] ['s'] (fun _ => some ['q']) 9 ['x']
      rfl (by decide) (by decide) (by decide)⟩

/-- `DocumentSummarizer.chat` (llm.py lines 26-45): the underlying
`ollama.chat` call either returns the assistant content or raises; the
`except` branch turns any exception into a `None` return.  The raw call's
outcome is the `Except` argument. -/
def chat_result : Except (List Char) (List Char) → Option (List Char)
  | .ok s => some s
  | .error _ => none

/-- Prompt prefix of `DocumentSummarizer.summarize_content` (llm.py line 83). -/
def document_sum_prompt : List Char :=
  "請為以下內容撰寫簡潔的中文摘要：\n\n".data

/-- Prompt prefix of `DocumentSummarizer.merge_summaries` (llm.py line 90). -/
def document_merge_prompt : List Char :=
  "以下是一系列摘要內容，請將它們整合成一個完整、連貫的最終摘要：\n\n".data

/-- `DocumentSummarizer.summarize_content` (llm.py lines 81-85): reset the
conversation, then one `chat` call; `ollamaFn` models the raw
`ollama.chat` call on the freshly reset conversation (its argument is the
user prompt; the message history it receives is pinned by the reset, see
`summarize_content_sent` below).  Returns `none` exactly when the raw call
raises. -/
def summarize_content (ollamaFn : List Char → Except (List Char) (List Char))
    (content : List Char) : Option (List Char) :=
  chat_result (ollamaFn (document_sum_prompt ++ content))

/-- `DocumentSummarizer.merge_summaries` (llm.py lines 87-92). -/
def merge_summaries (ollamaFn : List Char → Except (List Char) (List Char))
    (summaries : List (List Char)) : Option (List Char) :=
  chat_result (ollamaFn (document_merge_prompt ++ joinNN summaries))

/-- Number of slices `para[i:i+n]` for `i in range(0, len(para), n)`
(pdf_summary.py lines 76-77), fuel-bounded: each step consumes `n ≥ 1`
characters, so `l.length` steps are enough. -/
def slices_go (n : Nat) : Nat → List Char → List (List Char)
  | 0, _ => []
  | _, [] => []
  | fuel + 1, l => l.take n :: slices_go n fuel (l.drop n)

/-- The slicing loop `for i in range(0, len(para), max_chunk_length)`
(pdf_summary.py lines 76-77). -/
def slices (n : Nat) (l : List Char) : List (List Char) :=
  slices_go n l.length l

/-- Python `text.split("\n\n")`: split at each non-overlapping,
leftmost-first occurrence of two consecutive newlines, keeping empty
pieces (html_summary.py line 227, pdf_summary.py line 63). -/
def splitSeq2 : List Char → List (List Char)
  | [] => [[]]
  | [c] => [[c]]
  | c1 :: c2 :: rest =>
    if c1 = '\n' ∧ c2 = '\n' then [] :: splitSeq2 rest
    else
      match splitSeq2 (c2 :: rest) with
      | [] => [[c1]]
      | p :: ps => (c1 :: p) :: ps

/-- The paragraph loop of `PDFSummarizer.split_text` (pdf_summary.py lines
67-84), recursing over the remaining paragraphs with the accumulated
`current`. -/
def split_text_go (max_chunk_length : Nat) : List (List Char) → List Char → List (List Char)
  | [], current =>
    if current = [] then [] else [pyStrip current]
  | para :: rest, current =>
    if current.length + para.length + 2 ≤ max_chunk_length then
      split_text_go max_chunk_length rest (current ++ para ++ ['\n', '\n'])
    else
      (if current = [] then [] else [pyStrip current]) ++
        (if max_chunk_length < para.length then
          (slices max_chunk_length para).map pyStrip ++ split_text_go max_chunk_length rest []
        else
          split_text_go max_chunk_length rest (para ++ ['\n', '\n']))

/-- `PDFSummarizer.split_text` (pdf_summary.py lines 58-85). -/
def split_text (max_chunk_length : Nat) (text : List Char) : List (List Char) :=
  split_text_go max_chunk_length (splitSeq2 text) []

/-- `PDFSummarizer.summarize_chunk` (pdf_summary.py lines 87-93):
`summary if summary else ""`.  The `except` branch (line 91-93, which would
return the text `"摘要失敗: ..."`) is unreachable: `summarize_content`'s
own `chat` already catches every exception and returns `None` (llm.py
lines 43-45), which this function maps to the empty string. -/
def summarize_chunk (ollamaFn : List Char → Except (List Char) (List Char))
    (chunk : List Char) : List Char :=
  (summarize_content ollamaFn chunk).getD []

/-- The per-chunk summarize loop of `PDFSummarizer.get_summary`
(pdf_summary.py lines 130-135): keep truthy chunk summaries in order. -/
def pdf_map_step (ollamaFn : List Char → Except (List Char) (List Char))
    (chunks : List (List Char)) : List (List Char) :=
  chunks.filterMap (fun c =>
    let s := summarize_chunk ollamaFn c
    if s = [] then none else some s)

/-- `PDFSummarizer.get_summary` (pdf_summary.py lines 95-151) after text
extraction: `full_text` is the extracted text, the progress callback is
ignored (it does not affect the result). -/
def pdf_get_summary (ollamaFn : List Char → Except (List Char) (List Char))
    (max_chunk_length : Nat) (full_text : List Char) : List Char :=
  if full_text = [] then "無法從 PDF 中提取文字內容".data
  else
    let chunks := split_text max_chunk_length full_text
    let summaries := pdf_map_step ollamaFn chunks
    match summaries with
    | [] => "摘要過程中發生錯誤，無法生成摘要".data
    | [s] => s
    | _ =>
      match merge_summaries ollamaFn summaries with
      | some m => if m = [] then joinNN summaries else m
      | none => joinNN summaries

/-- C6: a Summarization Port failure for one unit of the map step — the
raw model call raising (absorbed into `None` by `chat`) or returning empty
— drops that unit from the generation's SummarySet: every retained summary
is a genuine non-empty `.ok` port reply (no error text is inserted), the
run continues as long as one unit succeeds, and only when all units fail
does the html engine return the terminal `"無法生成摘要"` result and the
pdf engine the terminal `"摘要過程中發生錯誤，無法生成摘要"` result. -/
theorem c6_failed_units_dropped :
    (∀ (f : List Char → Except (List Char) (List Char)) (texts : List (List Char))
        (s : List Char),
      s ∈ map_step (summarize_content f) texts →
        ∃ t ∈ texts, f (document_sum_prompt ++ t) = .ok s ∧ s ≠ []) ∧
    (∀ (f : List Char → Except (List Char) (List Char))
        (merge : List (List Char) → Option (List Char))
        (mergeStream : List (List Char) → List Char)
        (token_limit fuel : Nat) (texts : List (List Char)),
      texts ≠ [] →
      (∀ t ∈ texts, keepTruthy (summarize_content f t) = none) →
      summarize_texts_stream (summarize_content f) merge mergeStream token_limit fuel texts
        = some ("無法生成摘要".data, texts.length, 0)) ∧
    (∀ (f : List Char → Except (List Char) (List Char)) (texts : List (List Char))
        (t s : List Char),
      t ∈ texts → f (document_sum_prompt ++ t) = .ok s → s ≠ [] →
      map_step (summarize_content f) texts ≠ []) ∧
    (∀ (f : List Char → Except (List Char) (List Char)) (chunks : List (List Char))
        (s : List Char),
      s ∈ pdf_map_step f chunks →
        ∃ c ∈ chunks, f (document_sum_prompt ++ c) = .ok s ∧ s ≠ []) ∧
    (∀ (f : List Char → Except (List Char) (List Char)) (max_chunk_length : Nat)
        (full_text : List Char),
      full_text ≠ [] →
      (∀ c ∈ split_text max_chunk_length full_text, summarize_chunk f c = []) →
      pdf_get_summary f max_chunk_length full_text
        = "摘要過程中發生錯誤，無法生成摘要".data) := by
  refine ⟨?_, ?_, ?_, ?_, ?_⟩
  · intro f texts s hs
    rcases List.mem_filterMap.1 hs with ⟨t, ht, hkeep⟩
    refine ⟨t, ht, ?_⟩
    cases hf : f (document_sum_prompt ++ t) with
    | error e => simp [summarize_content, chat_result, hf, keepTruthy] at hkeep
    | ok r =>
      simp only [summarize_content, chat_result, hf, keepTruthy] at hkeep
      by_cases hr : r = []
      · simp [hr] at hkeep
      · simp only [if_neg hr, Option.some.injEq] at hkeep
        subst hkeep; exact ⟨rfl, hr⟩
  · intro f merge mergeStream token_limit fuel texts htexts hall
    have hmap : map_step (summarize_content f) texts = [] :=
      List.filterMap_eq_nil_iff.2 hall
    simp [summarize_texts_stream, htexts, hmap]
  · intro f texts t s ht hok hne hmap
    have := List.filterMap_eq_nil_iff.1 hmap t ht
    simp [summarize_content, chat_result, hok, keepTruthy, hne] at this
  · intro f chunks s hs
    rcases List.mem_filterMap.1 hs with ⟨c, hc, hkeep⟩
    refine ⟨c, hc, ?_⟩
    cases hf : f (document_sum_prompt ++ c) with
    | error e => simp [summarize_chunk, summarize_content, chat_result, hf] at hkeep
    | ok r =>
      simp only [summarize_chunk, summarize_content, chat_result, hf, Option.getD_some] at hkeep
      by_cases hr : r = []
      · simp [hr] at hkeep
      · simp only [if_neg hr, Option.some.injEq] at hkeep
        subst hkeep; exact ⟨rfl, hr⟩
  · intro f max_chunk_length full_text htext hall
    have hmap : pdf_map_step f (split_text max_chunk_length full_text) = [] := by
      refine List.filterMap_eq_nil_iff.2 ?_
      intro c hc
      simp [hall c hc]
    simp [pdf_get_summary, htext, hmap]

/-- Witness for C6: a port whose raw call always raises, one input text;
the html engine returns the terminal failure result with zero merge calls,
and the all-failed map step is empty. -/
theorem c6_failed_units_dropped_witness :
    (([['a']] : List (List Char)) ≠ [] ∧
        (∀ t ∈ ([['a']] : List (List Char)),
          keepTruthy (summarize_content (fun _ => .error ['e']) t) = none)) ∧
      summarize_texts_stream (summarize_content (fun _ => .error ['e']))
          (fun _ => none) (fun _ => []) 0 1 [['a']]
        = some ("無法生成摘要".data, 1, 0) :=
  ⟨⟨by decide, by decide⟩,
    c6_failed_units_dropped.2.1 (fun _ => .error ['e']) (fun _ => none) (fun _ => [])
      0 1 [['a']] (by decide) (by decide)⟩

/-- The error fragment of `DocumentSummarizer.chat_stream` (llm.py line 70). -/
def stream_err_msg (e : List Char) : List Char :=
  "串流錯誤: ".data ++ e

/-- `DocumentSummarizer.chat_stream` (llm.py lines 47-70): the underlying
streaming response yields `items` (each `some fragment` for a chunk whose
message carries content, `none` for one without) and then either completes
normally (`err = none`) or raises (`err = some e`).  The for-loop forwards
each content fragment as it arrives; the `except` branch yields exactly one
final fragment with the error text and then the generator closes. -/
def chat_stream_frags (items : List (Option (List Char))) (err : Option (List Char)) :
    List (List Char) :=
  items.filterMap id ++ (match err with | some e => [stream_err_msg e] | none => [])

/-- `DocumentSummarizer.merge_summaries_stream` (llm.py lines 94-100)
forwards `chat_stream`'s fragments unchanged after resetting the
conversation and building the merge prompt. -/
def merge_summaries_stream_frags (items : List (Option (List Char)))
    (err : Option (List Char)) : List (List Char) :=
  chat_stream_frags items err

/-- C7: whatever partial fragments a streaming summarize/merge call has
already yielded, an error makes the stream yield exactly one additional
final fragment carrying the error text and then close; the sentinel is the
last fragment, and an error-free stream yields only content fragments, so
the caller distinguishes truncation from failure by the sentinel. -/
theorem c7_stream_error_sentinel (items : List (Option (List Char))) (e : List Char) :
    chat_stream_frags items (some e) = items.filterMap id ++ [stream_err_msg e] ∧
      (chat_stream_frags items (some e)).getLast? = some (stream_err_msg e) ∧
      (merge_summaries_stream_frags items (some e)).getLast? = some (stream_err_msg e) ∧
      chat_stream_frags items none = items.filterMap id := by
  refine ⟨rfl, ?_, ?_, by simp [chat_stream_frags]⟩
  · show (items.filterMap id ++ [stream_err_msg e]).getLast? = some (stream_err_msg e)
    simp
  · show (items.filterMap id ++ [stream_err_msg e]).getLast? = some (stream_err_msg e)
    simp

/-- Roles of the chat messages sent to the model. -/
inductive Role
  | system
  | user
  | assistant

/-- The system prompt of `DocumentSummarizer` (llm.py lines 11-20). -/
def document_system_prompt : List Char :=
  ("你是一個專業的文件摘要助手。用戶會提供文字內容，請直接對這些內容進行摘要。\n\n" ++
   "摘要規則：\n" ++
   "• 提取核心主題和主要論點\n" ++
   "• 保留重要數據和關鍵事實\n" ++
   "• 保持邏輯結構清晰\n" ++
   "• 長度控制在原文的 15-25%\n" ++
   "• 以段落形式呈現，避免冗餘\n\n" ++
   "重要：只能使用繁體中文或英文回應，不可使用簡體中文。直接開始摘要，不要詢問內容在哪裡。").data

/-- The system prompt of `TranscriptSummarizer` (transcript_llm.py lines
32-79); the exact text is irrelevant to the theorems below, only that it is
the sole message surviving a reset. -/
def transcript_system_prompt : List Char :=
  "你是一位專業的「影片逐字稿摘要與知識結構化助手」。使用者將提供一份長篇逐字稿，你的任務是：在不遺漏重要內容的前提下，產生一份具層次、邏輯清晰且內容完整的摘要。".data

/-- `reset_conversation` (llm.py lines 72-75, transcript_llm.py lines
129-133): the history becomes the system prompt alone. -/
def reset_conversation (system_prompt : List Char) : List (Role × List Char) :=
  [(Role.system, system_prompt)]

/-- The message sequence `chat` / `chat_stream` sends to `ollama.chat`
(llm.py lines 27-34, 49-56): the current history plus the new user turn. -/
def chat_sent (messages : List (Role × List Char)) (user_input : List Char) :
    List (Role × List Char) :=
  messages ++ [(Role.user, user_input)]

/-- Messages sent to the model by `DocumentSummarizer.summarize_content`
(llm.py lines 81-85): it resets the conversation before calling `chat`, so
the prior history `messages` is discarded. -/
def summarize_content_sent (_messages : List (Role × List Char)) (content : List Char) :
    List (Role × List Char) :=
  chat_sent (reset_conversation document_system_prompt) (document_sum_prompt ++ content)

/-- Messages sent by `DocumentSummarizer.merge_summaries` (llm.py 87-92). -/
def merge_summaries_sent (_messages : List (Role × List Char))
    (summaries : List (List Char)) : List (Role × List Char) :=
  chat_sent (reset_conversation document_system_prompt)
    (document_merge_prompt ++ joinNN summaries)

/-- Messages sent by `DocumentSummarizer.merge_summaries_stream`
(llm.py 94-100). -/
def merge_summaries_stream_sent (_messages : List (Role × List Char))
    (summaries : List (List Char)) : List (Role × List Char) :=
  chat_sent (reset_conversation document_system_prompt)
    (document_merge_prompt ++ joinNN summaries)

/-- Messages sent by `TranscriptSummarizer.summarize_transcript`
(transcript_llm.py lines 135-139). -/
def summarize_transcript_sent (_messages : List (Role × List Char))
    (transcript : List Char) : List (Role × List Char) :=
  chat_sent (reset_conversation transcript_system_prompt)
    (transcript_sum_prompt ++ transcript)

/-- C8: every summarize/merge operation resets the conversation to the
system prompt alone before calling the model, so the message sequence sent
depends only on the current input — two calls with the same input send
identical messages no matter what history (`messages₁` vs `messages₂`) the
instance accumulated — and that sequence is exactly
`[system prompt, user prompt]`. -/
theorem c8_reset_before_call
    (messages₁ messages₂ : List (Role × List Char))
    (content : List Char) (summaries : List (List Char)) (transcript : List Char) :
    summarize_content_sent messages₁ content = summarize_content_sent messages₂ content ∧
      summarize_content_sent messages₁ content
        = [(Role.system, document_system_prompt),
           (Role.user, document_sum_prompt ++ content)] ∧
      merge_summaries_sent messages₁ summaries = merge_summaries_sent messages₂ summaries ∧
      merge_summaries_stream_sent messages₁ summaries
        = merge_summaries_stream_sent messages₂ summaries ∧
      merge_summaries_sent messages₁ summaries
        = [(Role.system, document_system_prompt),
           (Role.user, document_merge_prompt ++ joinNN summaries)] ∧
      summarize_transcript_sent messages₁ transcript
        = summarize_transcript_sent messages₂ transcript ∧
      summarize_transcript_sent messages₁ transcript
        = [(Role.system, transcript_system_prompt),
           (Role.user, transcript_sum_prompt ++ transcript)] :=
  ⟨rfl, rfl, rfl, rfl, rfl, rfl, rfl⟩

/-- Python `paragraph.split('.')` (html_summary.py line 246): split at
every period, keeping empty pieces. -/
def splitOnDot : List Char → List (List Char)
  | [] => [[]]
  | c :: rest =>
    if c = '.' then [] :: splitOnDot rest
    else
      match splitOnDot rest with
      | [] => [[c]]
      | p :: ps => (c :: p) :: ps

/-- The sentence list of html_summary.py line 246:
`[s.strip() + '.' for s in paragraph.split('.') if s.strip()]`. -/
def sentences_of (para : List Char) : List (List Char) :=
  (splitOnDot para).filterMap (fun s =>
    if pyStrip s = [] then none else some (pyStrip s ++ ['.']))

/-- The loop state of `split_text_by_tokens` (html_summary.py lines
226-229): accumulated chunks, the running `current_chunk` and the running
`current_tokens` counter (which sums the unit estimates, not the estimate
of the joined chunk text). -/
structure SplitSt where
  chunks : List (List Char)
  current_chunk : List Char
  current_tokens : Nat

/-- The sentence loop body of `split_text_by_tokens` (html_summary.py
lines 247-257). -/
def proc_sentence (max_tokens : Nat) (st : SplitSt) (sentence : List Char) : SplitSt :=
  if max_tokens < st.current_tokens + count_tokens sentence then
    { chunks := st.chunks ++
        (if st.current_chunk = [] then [] else [pyStrip st.current_chunk]),
      current_chunk := sentence,
      current_tokens := count_tokens sentence }
  else
    { st with
      current_chunk :=
        if st.current_chunk = [] then sentence else st.current_chunk ++ ' ' :: sentence,
      current_tokens := st.current_tokens + count_tokens sentence }

/-- The paragraph loop body of `split_text_by_tokens` (html_summary.py
lines 231-266): an over-budget paragraph flushes the current chunk and is
re-split at sentence boundaries; otherwise the paragraph is accumulated
under the running token counter. -/
def proc_para (max_tokens : Nat) (st : SplitSt) (para : List Char) : SplitSt :=
  if max_tokens < count_tokens para then
    let st1 :=
      if st.current_chunk = [] then st
      else { chunks := st.chunks ++ [pyStrip st.current_chunk],
             current_chunk := [], current_tokens := 0 }
    (sentences_of para).foldl (proc_sentence max_tokens) st1
  else
    if max_tokens < st.current_tokens + count_tokens para then
      { chunks := st.chunks ++
          (if st.current_chunk = [] then [] else [pyStrip st.current_chunk]),
        current_chunk := para,
        current_tokens := count_tokens para }
    else
      { st with
        current_chunk :=
          if st.current_chunk = [] then para
          else st.current_chunk ++ '\n' :: '\n' :: para,
        current_tokens := st.current_tokens + count_tokens para }

/-- The stripped, non-empty paragraphs the loop iterates over
(html_summary.py lines 227, 231-234). -/
def paras_of (text : List Char) : List (List Char) :=
  ((splitSeq2 text).map pyStrip).filter (fun p => !p.isEmpty)

/-- The final flush of `split_text_by_tokens` (html_summary.py lines
268-269): `if current_chunk: chunks.append(current_chunk.strip())`. -/
def finish_chunks (st : SplitSt) : List (List Char) :=
  st.chunks ++ (if st.current_chunk = [] then [] else [pyStrip st.current_chunk])

/-- `WebArticleSummarizer.split_text_by_tokens` (html_summary.py lines
224-271). -/
def split_text_by_tokens (text : List Char) (max_tokens : Nat) : List (List Char) :=
  finish_chunks ((paras_of text).foldl (proc_para max_tokens) ⟨[], [], 0⟩)

/-- Non-whitespace characters (the content a splitter must preserve). -/
def nonWs (c : Char) : Bool := !pyWs c

/-- Non-whitespace, non-period characters: the content the html splitter
preserves exactly (periods are rewritten by its sentence re-splitting). -/
def keptChar (c : Char) : Bool := !pyWs c && !(c = '.')

section SplitterContentLemmas

theorem filter_dropWhile_pyWs {q : Char → Bool} (hq : ∀ c, pyWs c = true → q c = false) :
    ∀ l : List Char, (l.dropWhile pyWs).filter q = l.filter q := by
  intro l
  induction l with
  | nil => rfl
  | cons c l ih =>
    by_cases hc : pyWs c
    · rw [List.dropWhile_cons, if_pos hc, ih, List.filter_cons, if_neg (by simp [hq c hc])]
    · rw [List.dropWhile_cons, if_neg hc]

theorem filter_pyStrip {q : Char → Bool} (hq : ∀ c, pyWs c = true → q c = false)
    (l : List Char) : (pyStrip l).filter q = l.filter q := by
  unfold pyStrip
  rw [List.filter_reverse, filter_dropWhile_pyWs hq, List.filter_reverse,
    filter_dropWhile_pyWs hq, List.reverse_reverse]

theorem filter_of_pyStrip_nil {q : Char → Bool} (hq : ∀ c, pyWs c = true → q c = false)
    (l : List Char) (h : pyStrip l = []) : l.filter q = [] := by
  rw [← filter_pyStrip hq l, h, List.filter_nil]

theorem pyStrip_of_filter_nil {l : List Char} (h : l.filter nonWs = []) :
    pyStrip l = [] := by
  have hall : ∀ c ∈ l, pyWs c = true := by
    intro c hc
    have := List.filter_eq_nil_iff.1 h c hc
    simpa [nonWs] using this
  have hdrop : l.dropWhile pyWs = [] := List.dropWhile_eq_nil_iff.2 hall
  simp [pyStrip, hdrop]

theorem pyStrip_ne_nil_of_filter {l : List Char} (h : l.filter nonWs ≠ []) :
    pyStrip l ≠ [] :=
  fun hs => h (filter_of_pyStrip_nil (fun c hc => by simp [nonWs, hc]) l hs)

theorem filter_nonWs_ne_nil_of_pyStrip {l : List Char} (h : pyStrip l ≠ []) :
    l.filter nonWs ≠ [] :=
  fun hf => h (pyStrip_of_filter_nil hf)

theorem splitSeq2_ne_nil : ∀ l : List Char, splitSeq2 l ≠ []
  | [] => by simp [splitSeq2]
  | [c] => by simp [splitSeq2]
  | c1 :: c2 :: rest => by
    by_cases h : c1 = '\n' ∧ c2 = '\n'
    · simp [splitSeq2, h]
    · have hrec := splitSeq2_ne_nil (c2 :: rest)
      simp only [splitSeq2, if_neg h]
      cases hm : splitSeq2 (c2 :: rest) with
      | nil => exact absurd hm hrec
      | cons p ps => simp

theorem splitSeq2_filter_flatten {q : Char → Bool} (hq : q '\n' = false) :
    ∀ l : List Char, ((splitSeq2 l).map (List.filter q)).flatten = l.filter q
  | [] => by simp [splitSeq2]
  | [c] => by simp [splitSeq2]
  | c1 :: c2 :: rest => by
    by_cases h : c1 = '\n' ∧ c2 = '\n'
    · obtain ⟨h1, h2⟩ := h
      subst h1; subst h2
      have ih := splitSeq2_filter_flatten hq rest
      simp [splitSeq2, List.filter_cons, hq, ih]
    · have ih := splitSeq2_filter_flatten hq (c2 :: rest)
      simp only [splitSeq2, if_neg h]
      cases hm : splitSeq2 (c2 :: rest) with
      | nil => exact absurd hm (splitSeq2_ne_nil _)
      | cons p ps =>
        rw [hm] at ih
        simp only [List.map_cons, List.flatten_cons] at ih ⊢
        rw [List.filter_cons, List.filter_cons]
        by_cases hc : q c1 <;> simp [hc, ih]

theorem splitOnDot_ne_nil : ∀ l : List Char, splitOnDot l ≠ []
  | [] => by simp [splitOnDot]
  | c :: rest => by
    by_cases h : c = '.'
    · simp [splitOnDot, h]
    · have hrec := splitOnDot_ne_nil rest
      simp only [splitOnDot, if_neg h]
      cases hm : splitOnDot rest with
      | nil => exact absurd hm hrec
      | cons p ps => simp

theorem splitOnDot_filter_flatten {q : Char → Bool} (hq : q '.' = false) :
    ∀ l : List Char, ((splitOnDot l).map (List.filter q)).flatten = l.filter q
  | [] => by simp [splitOnDot]
  | c :: rest => by
    by_cases h : c = '.'
    · subst h
      have ih := splitOnDot_filter_flatten hq rest
      simp [splitOnDot, List.filter_cons, hq, ih]
    · have ih := splitOnDot_filter_flatten hq rest
      simp only [splitOnDot, if_neg h]
      cases hm : splitOnDot rest with
      | nil => exact absurd hm (splitOnDot_ne_nil _)
      | cons p ps =>
        rw [hm] at ih
        simp only [List.map_cons, List.flatten_cons] at ih ⊢
        rw [List.filter_cons, List.filter_cons]
        by_cases hc : q c <;> simp [hc, ih]

theorem sentences_filter_flatten {q : Char → Bool}
    (hq_ws : ∀ c, pyWs c = true → q c = false) (hq_dot : q '.' = false)
    (p : List Char) :
    ((sentences_of p).map (List.filter q)).flatten = p.filter q := by
  have aux : ∀ m : List (List Char),
      ((m.filterMap (fun s =>
          if pyStrip s = [] then none else some (pyStrip s ++ ['.']))).map
        (List.filter q)).flatten = (m.map (List.filter q)).flatten := by
    intro m
    induction m with
    | nil => rfl
    | cons s m ih =>
      by_cases hs : pyStrip s = []
      · simp [List.filterMap_cons, hs, ih, filter_of_pyStrip_nil hq_ws s hs]
      · simp only [List.filterMap_cons, if_neg hs, List.map_cons, List.flatten_cons, ih]
        rw [List.filter_append, filter_pyStrip hq_ws]
        simp [List.filter_cons, hq_dot]
  unfold sentences_of
  rw [aux, splitOnDot_filter_flatten hq_dot]

/-- The non-`q`-filtered content of a splitter state: flushed chunks
followed by the running chunk. -/
def chunks_content (q : Char → Bool) (st : SplitSt) : List Char :=
  (st.chunks.map (List.filter q)).flatten ++ st.current_chunk.filter q

theorem chunks_content_proc_sentence {q : Char → Bool}
    (hq_ws : ∀ c, pyWs c = true → q c = false) (b : Nat) (st : SplitSt)
    (s : List Char) :
    chunks_content q (proc_sentence b st s) = chunks_content q st ++ s.filter q := by
  unfold proc_sentence chunks_content
  by_cases h : b < st.current_tokens + count_tokens s
  · rw [if_pos h]
    by_cases hc : st.current_chunk = []
    · simp [hc]
    · simp [hc, filter_pyStrip hq_ws, List.append_assoc]
  · rw [if_neg h]
    by_cases hc : st.current_chunk = []
    · simp [hc]
    · simp [hc, List.filter_append, List.filter_cons,
        hq_ws ' ' (by decide), List.append_assoc]

theorem chunks_content_foldl_sentences {q : Char → Bool}
    (hq_ws : ∀ c, pyWs c = true → q c = false) (b : Nat) :
    ∀ (ss : List (List Char)) (st : SplitSt),
      chunks_content q (ss.foldl (proc_sentence b) st)
        = chunks_content q st ++ (ss.map (List.filter q)).flatten := by
  intro ss
  induction ss with
  | nil => intro st; simp
  | cons s ss ih =>
    intro st
    rw [List.foldl_cons, ih, chunks_content_proc_sentence hq_ws]
    simp [List.append_assoc]

theorem chunks_content_proc_para {q : Char → Bool}
    (hq_ws : ∀ c, pyWs c = true → q c = false) (hq_dot : q '.' = false)
    (b : Nat) (st : SplitSt) (p : List Char) :
    chunks_content q (proc_para b st p) = chunks_content q st ++ p.filter q := by
  unfold proc_para
  by_cases h : b < count_tokens p
  · rw [if_pos h, chunks_content_foldl_sentences hq_ws, sentences_filter_flatten hq_ws hq_dot]
    by_cases hc : st.current_chunk = []
    · simp [hc]
    · simp [hc, chunks_content, filter_pyStrip hq_ws]
  · rw [if_neg h]
    by_cases h2 : b < st.current_tokens + count_tokens p
    · rw [if_pos h2]
      unfold chunks_content
      by_cases hc : st.current_chunk = []
      · simp [hc]
      · simp [hc, filter_pyStrip hq_ws, List.append_assoc]
    · rw [if_neg h2]
      unfold chunks_content
      by_cases hc : st.current_chunk = []
      · simp [hc]
      · simp [hc, List.filter_append, List.filter_cons,
          hq_ws '\n' (by decide), List.append_assoc]

theorem chunks_content_foldl_paras {q : Char → Bool}
    (hq_ws : ∀ c, pyWs c = true → q c = false) (hq_dot : q '.' = false)
    (b : Nat) :
    ∀ (ps : List (List Char)) (st : SplitSt),
      chunks_content q (ps.foldl (proc_para b) st)
        = chunks_content q st ++ (ps.map (List.filter q)).flatten := by
  intro ps
  induction ps with
  | nil => intro st; simp
  | cons p ps ih =>
    intro st
    rw [List.foldl_cons, ih, chunks_content_proc_para hq_ws hq_dot]
    simp [List.append_assoc]

theorem finish_chunks_filter {q : Char → Bool}
    (hq_ws : ∀ c, pyWs c = true → q c = false) (st : SplitSt) :
    ((finish_chunks st).map (List.filter q)).flatten = chunks_content q st := by
  unfold finish_chunks chunks_content
  by_cases hc : st.current_chunk = []
  · simp [hc]
  · simp [hc, filter_pyStrip hq_ws]

theorem paras_of_filter_flatten {q : Char → Bool}
    (hq_ws : ∀ c, pyWs c = true → q c = false) (text : List Char) :
    ((paras_of text).map (List.filter q)).flatten = text.filter q := by
  unfold paras_of
  have aux : ∀ m : List (List Char),
      (((m.map pyStrip).filter (fun p => !p.isEmpty)).map (List.filter q)).flatten
        = (m.map (List.filter q)).flatten := by
    intro m
    induction m with
    | nil => rfl
    | cons x m ih =>
      by_cases hx : pyStrip x = []
      · simp [List.filter_cons, hx, ih, filter_of_pyStrip_nil hq_ws x hx]
      · simp [List.filter_cons, List.isEmpty_iff, hx, ih, filter_pyStrip hq_ws]
  rw [aux, splitSeq2_filter_flatten (hq_ws '\n' (by decide))]

/-- The html splitter preserves, in order, every character that is neither
whitespace nor a period, for every input and budget. -/
theorem split_text_by_tokens_filter_flatten {q : Char → Bool}
    (hq_ws : ∀ c, pyWs c = true → q c = false) (hq_dot : q '.' = false)
    (text : List Char) (b : Nat) :
    ((split_text_by_tokens text b).map (List.filter q)).flatten = text.filter q := by
  unfold split_text_by_tokens
  rw [finish_chunks_filter hq_ws, chunks_content_foldl_paras hq_ws hq_dot,
    paras_of_filter_flatten hq_ws]
  simp [chunks_content]

end SplitterContentLemmas

section SplitterNonEmptyLemmas

/-- Invariant of the html splitter state: the running chunk is empty or
has non-whitespace content, and every flushed chunk is non-empty. -/
def SplitInv (st : SplitSt) : Prop :=
  (st.current_chunk = [] ∨ st.current_chunk.filter nonWs ≠ []) ∧
    ∀ c ∈ st.chunks, c ≠ []

theorem sentences_of_filter_ne_nil (p : List Char) :
    ∀ s ∈ sentences_of p, s.filter nonWs ≠ [] := by
  intro s hs
  rcases List.mem_filterMap.1 hs with ⟨x, _, hx⟩
  by_cases hstrip : pyStrip x = []
  · simp [hstrip] at hx
  · simp only [if_neg hstrip, Option.some.injEq] at hx
    subst hx
    rw [List.filter_append]
    intro hnil
    rcases List.append_eq_nil.1 hnil with ⟨_, h2⟩
    simp [nonWs, pyWs] at h2

theorem inv_proc_sentence (b : Nat) (st : SplitSt) (s : List Char)
    (hinv : SplitInv st) (hs : s.filter nonWs ≠ []) :
    SplitInv (proc_sentence b st s) := by
  unfold proc_sentence
  by_cases h : b < st.current_tokens + count_tokens s
  · rw [if_pos h]
    refine ⟨Or.inr hs, ?_⟩
    intro c hc
    rcases List.mem_append.1 hc with hc | hc
    · exact hinv.2 c hc
    · by_cases hcur : st.current_chunk = []
      · simp [hcur] at hc
      · simp only [if_neg hcur, List.mem_singleton] at hc
        subst hc
        exact pyStrip_ne_nil_of_filter (hinv.1.resolve_left hcur)
  · rw [if_neg h]
    refine ⟨Or.inr ?_, hinv.2⟩
    by_cases hcur : st.current_chunk = []
    · simpa [hcur] using hs
    · rw [if_neg hcur, List.filter_append]
      intro hnil
      rcases List.append_eq_nil.1 hnil with ⟨_, h2⟩
      rw [List.filter_cons] at h2
      have : nonWs ' ' = false := by decide
      rw [if_neg (by simp [this])] at h2
      exact hs h2

theorem inv_foldl_sentences (b : Nat) :
    ∀ (ss : List (List Char)) (st : SplitSt),
      (∀ s ∈ ss, s.filter nonWs ≠ []) → SplitInv st →
      SplitInv (ss.foldl (proc_sentence b) st) := by
  intro ss
  induction ss with
  | nil => intro st _ hinv; exact hinv
  | cons s ss ih =>
    intro st hss hinv
    rw [List.foldl_cons]
    exact ih _ (fun u hu => hss u (List.mem_cons_of_mem s hu))
      (inv_proc_sentence b st s hinv (hss s (List.mem_cons_self s ss)))

theorem inv_proc_para (b : Nat) (st : SplitSt) (p : List Char)
    (hinv : SplitInv st) (hp : p.filter nonWs ≠ []) :
    SplitInv (proc_para b st p) := by
  unfold proc_para
  by_cases h : b < count_tokens p
  · rw [if_pos h]
    refine inv_foldl_sentences b (sentences_of p) _ (sentences_of_filter_ne_nil p) ?_
    by_cases hcur : st.current_chunk = []
    · simpa [hcur] using hinv
    · rw [if_neg hcur]
      refine ⟨Or.inl rfl, ?_⟩
      intro c hc
      rcases List.mem_append.1 hc with hc | hc
      · exact hinv.2 c hc
      · simp only [List.mem_singleton] at hc
        subst hc
        exact pyStrip_ne_nil_of_filter (hinv.1.resolve_left hcur)
  · rw [if_neg h]
    by_cases h2 : b < st.current_tokens + count_tokens p
    · rw [if_pos h2]
      refine ⟨Or.inr hp, ?_⟩
      intro c hc
      rcases List.mem_append.1 hc with hc | hc
      · exact hinv.2 c hc
      · by_cases hcur : st.current_chunk = []
        · simp [hcur] at hc
        · simp only [if_neg hcur, List.mem_singleton] at hc
          subst hc
          exact pyStrip_ne_nil_of_filter (hinv.1.resolve_left hcur)
    · rw [if_neg h2]
      refine ⟨Or.inr ?_, hinv.2⟩
      by_cases hcur : st.current_chunk = []
      · simpa [hcur] using hp
      · rw [if_neg hcur, List.filter_append]
        intro hnil
        rcases List.append_eq_nil.1 hnil with ⟨_, h2'⟩
        rw [List.filter_cons] at h2'
        have hn : nonWs '\n' = false := by decide
        rw [if_neg (by simp [hn])] at h2'
        rw [List.filter_cons] at h2'
        rw [if_neg (by simp [hn])] at h2'
        exact hp h2'

theorem inv_foldl_paras (b : Nat) :
    ∀ (ps : List (List Char)) (st : SplitSt),
      (∀ p ∈ ps, p.filter nonWs ≠ []) → SplitInv st →
      SplitInv (ps.foldl (proc_para b) st) := by
  intro ps
  induction ps with
  | nil => intro st _ hinv; exact hinv
  | cons p ps ih =>
    intro st hps hinv
    rw [List.foldl_cons]
    exact ih _ (fun u hu => hps u (List.mem_cons_of_mem p hu))
      (inv_proc_para b st p hinv (hps p (List.mem_cons_self p ps)))

theorem paras_of_filter_ne_nil (text : List Char) :
    ∀ p ∈ paras_of text, p.filter nonWs ≠ [] := by
  intro p hp
  unfold paras_of at hp
  rcases List.mem_filter.1 hp with ⟨hmem, hne⟩
  rcases List.mem_map.1 hmem with ⟨x, _, hx⟩
  subst hx
  rw [filter_pyStrip (fun c hc => by simp [nonWs, hc])]
  exact filter_nonWs_ne_nil_of_pyStrip (by simpa [List.isEmpty_iff] using hne)

theorem split_text_by_tokens_ne_nil (text : List Char) (b : Nat) :
    ∀ c ∈ split_text_by_tokens text b, c ≠ [] := by
  intro c hc
  unfold split_text_by_tokens finish_chunks at hc
  have hinv : SplitInv ((paras_of text).foldl (proc_para b) ⟨[], [], 0⟩) :=
    inv_foldl_paras b (paras_of text) _ (paras_of_filter_ne_nil text)
      ⟨Or.inl rfl, by simp⟩
  rcases List.mem_append.1 hc with hc | hc
  · exact hinv.2 c hc
  · set st := (paras_of text).foldl (proc_para b) (⟨[], [], 0⟩ : SplitSt) with hst
    by_cases hcur : st.current_chunk = []
    · simp [hcur] at hc
    · simp only [if_neg hcur, List.mem_singleton] at hc
      subst hc
      exact pyStrip_ne_nil_of_filter (hinv.1.resolve_left hcur)

end SplitterNonEmptyLemmas

section PdfSplitterLemmas

theorem slices_go_flatten (n : Nat) (hn : 0 < n) :
    ∀ (fuel : Nat) (l : List Char), l.length ≤ fuel →
      (slices_go n fuel l).flatten = l := by
  intro fuel
  induction fuel with
  | zero =>
    intro l hl
    have : l = [] := List.eq_nil_of_length_eq_zero (Nat.le_zero.1 hl)
    subst this; rfl
  | succ fuel ih =>
    intro l hl
    cases l with
    | nil => rfl
    | cons c cs =>
      show (List.take n (c :: cs) :: slices_go n fuel (List.drop n (c :: cs))).flatten
          = c :: cs
      have hlen : (List.drop n (c :: cs)).length ≤ fuel := by
        rw [List.length_drop]
        simp only [List.length_cons]
        simp only [List.length_cons] at hl
        omega
      rw [List.flatten_cons, ih (List.drop n (c :: cs)) hlen, List.take_append_drop]

theorem slices_flatten (n : Nat) (l : List Char) (hn : 0 < n) :
    (slices n l).flatten = l :=
  slices_go_flatten n hn l.length l le_rfl

theorem split_text_go_filter_flatten {q : Char → Bool}
    (hq_ws : ∀ c, pyWs c = true → q c = false) (m : Nat) (hm : 0 < m) :
    ∀ (ps : List (List Char)) (current : List Char),
      ((split_text_go m ps current).map (List.filter q)).flatten
        = current.filter q ++ (ps.map (List.filter q)).flatten := by
  intro ps
  induction ps with
  | nil =>
    intro current
    by_cases hc : current = [] <;> simp [split_text_go, hc, filter_pyStrip hq_ws]
  | cons p rest ih =>
    intro current
    by_cases h1 : current.length + p.length + 2 ≤ m
    · simp only [split_text_go, if_pos h1]
      rw [ih]
      simp [List.filter_append, List.filter_cons, hq_ws '\n' (by decide),
        List.append_assoc]
    · simp only [split_text_go, if_neg h1]
      by_cases h2 : m < p.length
      · rw [if_pos h2]
        have hslices : ((slices m p).map (List.filter q ∘ pyStrip)).flatten
            = p.filter q := by
          have hcomp : (List.filter q ∘ pyStrip) = List.filter q := by
            funext x
            exact filter_pyStrip hq_ws x
          rw [hcomp, ← List.filter_flatten, slices_flatten m p hm]
        by_cases hc : current = [] <;>
          simp [hc, ih, hslices, filter_pyStrip hq_ws, List.append_assoc]
      · rw [if_neg h2]
        by_cases hc : current = [] <;>
          simp [hc, ih, filter_pyStrip hq_ws, List.filter_append, List.filter_cons,
            hq_ws '\n' (by decide), List.append_assoc]

/-- The pdf splitter preserves, in order, every non-whitespace character,
for every input and positive chunk length. -/
theorem split_text_filter_flatten {q : Char → Bool}
    (hq_ws : ∀ c, pyWs c = true → q c = false) (m : Nat) (hm : 0 < m)
    (text : List Char) :
    ((split_text m text).map (List.filter q)).flatten = text.filter q := by
  unfold split_text
  rw [split_text_go_filter_flatten hq_ws m hm]
  simpa using splitSeq2_filter_flatten (hq_ws '\n' (by decide)) text

end PdfSplitterLemmas

/-- Counterexample for C2.  Html splitter, text `"aaaaab"` (one paragraph,
no period), budget 1: the paragraph is over budget, the sentence re-split
appends a period, and the single chunk is `"aaaaab."` — an inserted
character, so trimming-insensitive reconstruction fails.  Pdf splitter,
text `"\n\n"`, budget 2000 > 0: the accumulated all-whitespace chunk strips
to the empty string, which is returned as an (empty) chunk. -/
theorem c2_counterexample_insertion_and_empty_chunk :
    ((split_text_by_tokens "aaaaab".data 1).map (List.filter nonWs)).flatten
        ≠ "aaaaab".data.filter nonWs ∧
      split_text_by_tokens "aaaaab".data 1 = ["aaaaab.".data] ∧
      (0 : Nat) < 2000 ∧ [] ∈ split_text 2000 "\n\n".data := by
  refine ⟨by decide, by decide, by decide, by decide⟩

/-- C2 (amended): for every text and budget > 0, the html splitter's
chunks reconstruct, in order, every character that is neither whitespace
nor a period (periods may be inserted or dropped when an over-budget
paragraph is re-split at sentence boundaries), and none of its chunks is
empty; the pdf splitter's chunks reconstruct every non-whitespace
character in order, but it may emit empty chunks (an all-whitespace
accumulation or slice strips to the empty string). -/
theorem c2_splitters_reconstruct (text : List Char) (budget : Nat) (hb : 0 < budget) :
    ((split_text_by_tokens text budget).map (List.filter keptChar)).flatten
        = text.filter keptChar ∧
      (∀ c ∈ split_text_by_tokens text budget, c ≠ []) ∧
      ((split_text budget text).map (List.filter nonWs)).flatten
        = text.filter nonWs := by
  refine ⟨?_, split_text_by_tokens_ne_nil text budget, ?_⟩
  · exact split_text_by_tokens_filter_flatten
      (fun c hc => by simp [keptChar, hc]) (by decide) text budget
  · exact split_text_filter_flatten
      (fun c hc => by simp [nonWs, hc]) budget hb text

/-- Witness for C2 (amended) at text `"ab \n\n cd."` and budget 1. -/
theorem c2_splitters_reconstruct_witness :
    (0 : Nat) < 1 ∧
      (((split_text_by_tokens "ab \n\n cd.".data 1).map
            (List.filter keptChar)).flatten = "ab \n\n cd.".data.filter keptChar ∧
        (∀ c ∈ split_text_by_tokens "ab \n\n cd.".data 1, c ≠ []) ∧
        ((split_text 1 "ab \n\n cd.".data).map (List.filter nonWs)).flatten
          = "ab \n\n cd.".data.filter nonWs) :=
  ⟨by decide, c2_splitters_reconstruct "ab \n\n cd.".data 1 (by decide)⟩

section ChunkDecompositionLemmas

theorem joinNN_concat (ps : List (List Char)) (a : List Char) (h : ps ≠ []) :
    joinNN (ps ++ [a]) = joinNN ps ++ '\n' :: '\n' :: a := by
  induction ps with
  | nil => exact absurd rfl h
  | cons p ps ih =>
    cases ps with
    | nil => rfl
    | cons p2 ps2 =>
      have hne : p2 :: ps2 ≠ [] := by simp
      calc joinNN ((p :: p2 :: ps2) ++ [a])
          = p ++ '\n' :: '\n' :: joinNN ((p2 :: ps2) ++ [a]) := rfl
        _ = p ++ '\n' :: '\n' :: (joinNN (p2 :: ps2) ++ '\n' :: '\n' :: a) := by
            rw [ih hne]
        _ = (p ++ '\n' :: '\n' :: joinNN (p2 :: ps2)) ++ '\n' :: '\n' :: a := by
            simp
        _ = joinNN (p :: p2 :: ps2) ++ '\n' :: '\n' :: a := rfl

/-- A chunk built by paragraph accumulation: the stripped `"\n\n"`-join of
a non-empty run of paragraphs whose individual token estimates sum to at
most the budget. -/
def chunk_from_paras (b : Nat) (c : List Char) : Prop :=
  ∃ ps : List (List Char), ps ≠ [] ∧ c = pyStrip (joinNN ps) ∧
    (ps.map count_tokens).sum ≤ b

/-- Invariant for C3: flushed chunks decompose into budget-bounded
paragraph runs; the running chunk, when non-empty, is the un-stripped join
of such a run whose estimate sum equals the running token counter. -/
def DecompInv (b : Nat) (st : SplitSt) : Prop :=
  (∀ c ∈ st.chunks, chunk_from_paras b c) ∧
    ((st.current_chunk = [] ∧ st.current_tokens = 0) ∨
      (st.current_chunk ≠ [] ∧
        ∃ ps : List (List Char), ps ≠ [] ∧ st.current_chunk = joinNN ps ∧
          st.current_tokens = (ps.map count_tokens).sum ∧ st.current_tokens ≤ b))

theorem decomp_inv_proc_para (b : Nat) (st : SplitSt) (p : List Char)
    (hp : count_tokens p ≤ b) (hpne : p ≠ []) (hinv : DecompInv b st) :
    DecompInv b (proc_para b st p) := by
  unfold proc_para
  rw [if_neg (by omega : ¬ b < count_tokens p)]
  by_cases h2 : b < st.current_tokens + count_tokens p
  · rw [if_pos h2]
    constructor
    · intro c hc
      rcases List.mem_append.1 hc with hc | hc
      · exact hinv.1 c hc
      · by_cases hcur : st.current_chunk = []
        · simp [hcur] at hc
        · simp only [if_neg hcur, List.mem_singleton] at hc
          subst hc
          rcases hinv.2 with ⟨hc0, _⟩ | ⟨_, ps, hne, hcur2, hsum, hle⟩
          · exact absurd hc0 hcur
          · exact ⟨ps, hne, by rw [hcur2], by omega⟩
    · right
      exact ⟨hpne, [p], by simp, rfl, by simp, by simpa using hp⟩
  · rw [if_neg h2]
    refine ⟨hinv.1, Or.inr ?_⟩
    by_cases hcur : st.current_chunk = []
    · rcases hinv.2 with ⟨_, ht0⟩ | ⟨hne', _⟩
      · rw [if_pos hcur]
        exact ⟨hpne, [p], by simp, rfl, by simp [ht0], by simp [ht0]; omega⟩
      · exact absurd hcur hne'
    · rw [if_neg hcur]
      rcases hinv.2 with ⟨hc0, _⟩ | ⟨_, ps, hne, hcur2, hsum, hle⟩
      · exact absurd hc0 hcur
      · refine ⟨by simp [hcur], ps ++ [p], by simp, ?_, ?_,
          (by omega : st.current_tokens + count_tokens p ≤ b)⟩
        · rw [hcur2, joinNN_concat ps p hne]
        · simp [hsum]

theorem decomp_inv_foldl_paras (b : Nat) :
    ∀ (ps : List (List Char)) (st : SplitSt),
      (∀ p ∈ ps, count_tokens p ≤ b ∧ p ≠ []) → DecompInv b st →
      DecompInv b (ps.foldl (proc_para b) st) := by
  intro ps
  induction ps with
  | nil => intro st _ hinv; exact hinv
  | cons p ps ih =>
    intro st hps hinv
    rw [List.foldl_cons]
    exact ih _ (fun u hu => hps u (List.mem_cons_of_mem p hu))
      (decomp_inv_proc_para b st p (hps p (List.mem_cons_self p ps)).1
        (hps p (List.mem_cons_self p ps)).2 hinv)

end ChunkDecompositionLemmas

/-- Counterexample for C3: text `"aaaa\n\nbbbb"` with budget 2.  Both
paragraphs have estimate 1 ≤ 2 and the whole text has estimate 3 > 2, yet
the splitter returns a SINGLE chunk (the whole text) — because chunks are
closed on the running sum of paragraph estimates, not the estimate of the
joined text — and that one chunk's estimate, 3, exceeds the budget even
though it is not a lone over-budget sentence. -/
theorem c3_counterexample_single_overfull_chunk :
    paras_of "aaaa\n\nbbbb".data = ["aaaa".data, "bbbb".data] ∧
      (∀ p ∈ paras_of "aaaa\n\nbbbb".data, count_tokens p ≤ 2) ∧
      2 < count_tokens "aaaa\n\nbbbb".data ∧
      split_text_by_tokens "aaaa\n\nbbbb".data 2 = ["aaaa\n\nbbbb".data] := by
  refine ⟨by decide, by decide, by decide, by decide⟩

/-- C3 (amended): when every paragraph of the input is individually within
the budget, every returned chunk is the strip of the `"\n\n"`-join of a
non-empty run of consecutive paragraphs whose individual estimates sum to
at most the budget.  (The estimate of the joined chunk text itself may
exceed the budget by the rounding of the `"\n\n"` joiners, and the
splitter may return a single chunk even when the whole text is over
budget, as the counterexample shows.) -/
theorem c3_chunks_are_bounded_para_runs (text : List Char) (budget : Nat)
    (hb : ∀ p ∈ paras_of text, count_tokens p ≤ budget) :
    ∀ c ∈ split_text_by_tokens text budget, chunk_from_paras budget c := by
  have hps : ∀ p ∈ paras_of text, count_tokens p ≤ budget ∧ p ≠ [] := by
    intro p hp
    refine ⟨hb p hp, ?_⟩
    unfold paras_of at hp
    rcases List.mem_filter.1 hp with ⟨_, hne⟩
    simpa [List.isEmpty_iff] using hne
  have hinv : DecompInv budget ((paras_of text).foldl (proc_para budget) ⟨[], [], 0⟩) :=
    decomp_inv_foldl_paras budget (paras_of text) _ hps ⟨by simp, Or.inl ⟨rfl, rfl⟩⟩
  intro c hc
  unfold split_text_by_tokens finish_chunks at hc
  set st := (paras_of text).foldl (proc_para budget) (⟨[], [], 0⟩ : SplitSt) with hst
  rcases List.mem_append.1 hc with hc | hc
  · exact hinv.1 c hc
  · by_cases hcur : st.current_chunk = []
    · simp [hcur] at hc
    · simp only [if_neg hcur, List.mem_singleton] at hc
      subst hc
      rcases hinv.2 with ⟨hc0, _⟩ | ⟨_, ps, hne, hcur2, hsum, hle⟩
      · exact absurd hc0 hcur
      · exact ⟨ps, hne, by rw [hcur2], by omega⟩

/-- Witness for C3 (amended) at text `"aaaa\n\nbbbb\n\ncccc"`, budget 2:
all three paragraphs have estimate 1 ≤ 2, and every returned chunk is a
stripped bounded paragraph run. -/
theorem c3_chunks_are_bounded_para_runs_witness :
    (∀ p ∈ paras_of "aaaa\n\nbbbb\n\ncccc".data, count_tokens p ≤ 2) ∧
      ∀ c ∈ split_text_by_tokens "aaaa\n\nbbbb\n\ncccc".data 2,
        chunk_from_paras 2 c :=
  ⟨by decide, c3_chunks_are_bounded_para_runs "aaaa\n\nbbbb\n\ncccc".data 2 (by decide)⟩

example : split_text_by_tokens "aaaaab".data 1 = ["aaaaab.".data] := by decide
example : split_text_by_tokens "aaaa\n\nbbbb".data 2 = ["aaaa\n\nbbbb".data] := by decide
example : split_text_by_tokens "aaaa\n\nbbbb\n\ncccc".data 2
    = ["aaaa\n\nbbbb".data, "cccc".data] := by decide
example : split_text 2000 "\n\n".data = [[]] := by decide
example : split_text 4 "aaaaaa\n\nbb".data = ["aaaa".data, "aa".data, "bb".data] := by decide

/-- C9: the token estimator `count_tokens` is a pure function into `Nat`
(hence non-negative), and it is monotone in text length: a text with at
least as many characters never gets a smaller estimate. -/
theorem c9_count_tokens_monotone (s t : List Char) (h : t.length ≤ s.length) :
    count_tokens t ≤ count_tokens s ∧ 0 ≤ (count_tokens s : Int) := by
  constructor
  · exact Nat.div_le_div_right h
  · exact Int.ofNat_nonneg _

/-- Witness for C9 at concrete texts `"abc"` and `"abcdef"`. -/
theorem c9_count_tokens_monotone_witness :
    ['a','b','c'].length ≤ ['a','b','c','d','e','f'].length ∧
      (count_tokens ['a','b','c'] ≤ count_tokens ['a','b','c','d','e','f'] ∧
        0 ≤ (count_tokens ['a','b','c','d','e','f'] : Int)) :=
  ⟨by decide, c9_count_tokens_monotone ['a','b','c','d','e','f'] ['a','b','c'] (by decide)⟩

/-- C10: after `set_chunk_length(length)` the chunk budget field equals
`max(500, length)`; in particular it is never below 500. -/
theorem c10_set_chunk_length (st : PDFSummarizerState) (length : Int) :
    (set_chunk_length st length).max_chunk_length = max 500 length ∧
      500 ≤ (set_chunk_length st length).max_chunk_length := by
  exact ⟨rfl, le_max_left _ _⟩

end HtmlPdfSummarizer
